import Mathlib

set_option autoImplicit false

namespace LocalLLM

/-! Shallow embedding of the localLLM repository: the traversal/selection engine
(`processFiles`), the export/import analyzer (`getExportsFromFile`), the
dependency resolver (`getDirectDependencies` / `findPackageEntryPointRelativePath`),
workspace-package discovery (`findWorkspacePackages`) and the workspace-index
cache artifact (`createWorkspaceIndex` / `loadWorkspaceIndex`).

Paths are modelled as lists of components (POSIX components between slashes);
`path.join`, `path.relative`, `path.resolve` and `path.basename` are modelled on
that representation. -/

/-! ## Path model -/

abbrev Path := List String

/-- Models node's `path.join(base, p)` (and `path.resolve(base, p)`) for a relative
second argument as produced in this code base: the string `"./x/y"` is modelled
as the component list `"." :: ["x", "y"]`, and joining normalizes `"."` away. -/
def pathJoin (base p : Path) : Path :=
  base ++ p.filter (fun c => c ≠ ".")

/-- Models node's `path.relative(base, target)` on component lists: strip the
common prefix, then one `".."` per remaining base component. -/
def pathRelative : Path → Path → Path
  | [], tgt => tgt
  | base, [] => List.replicate base.length ".."
  | a :: as_, b :: bs =>
    if a = b then pathRelative as_ bs
    else List.replicate (a :: as_).length ".." ++ b :: bs

/-- Models `path.basename` on component lists. -/
def basename (p : Path) : String := (p.getLast?).getD ""

/-- Rendering of a component path with forward slashes (used inside output records). -/
def renderPath (p : Path) : String := String.intercalate "/" p

/-- Models JS `s.startsWith(pre)` (same as `String.startsWith`, stated on the
character list so that it evaluates by reduction). -/
def strStartsWith (s pre : String) : Bool := pre.data.isPrefixOf s.data

/-- Models JS `s.endsWith(suffix)` (same as `String.endsWith`, stated on the
character list so that it evaluates by reduction). -/
def strEndsWith (s suff : String) : Bool := suff.data.isSuffixOf s.data

/-! ## File selection and traversal engine

Embeds the second `processFiles` variant of `src/unnamed/part_002` (the one that
imports `./exclusions.js` and takes `repoRoot`), i.e. `processSingleFile`
(lines 149–220) and `processDirectory` (lines 226–268). -/

/-- Shape of the `exclusions` object imported from `./exclusions.js`. -/
structure Exclusions where
  directoryExclusions : List String
  fileExclusions : List String
  prefixExclusions : List String
  deriving Repr, DecidableEq

/-- Modelled from the spec: the module `./exclusions.js` imported by the traversal
engine is not among the sources. Spec §6 fixes the defaults: directory names
(version-control metadata directory, dependency-cache directory), file-name
exclusions (lock files), and disallowed name prefixes (dotfiles). -/
def defaultExclusions : Exclusions :=
  { directoryExclusions := [".git", "node_modules"]
    fileExclusions := ["package-lock.json", "pnpm-lock.yaml", "yarn.lock"]
    prefixExclusions := ["."] }

/-- The `options` argument of `processFiles` (threshold is in MB). -/
structure Options where
  threshold : Nat
  includeAll : Bool
  repoRoot : Path
  excl : Exclusions
  deriving Repr

/-- Mirrors `const thresholdBytes = options.threshold * 1024 * 1024`. -/
def thresholdBytes (o : Options) : Nat := o.threshold * 1024 * 1024

/-- A filesystem tree as seen by `fs.readdir(dir, { withFileTypes: true })`:
directories, regular files, and other entries (sockets, symlinks, ...).
`statFails` models `fs.stat` throwing for the entry; `readFails` models
`fs.readFile` (or the `isBinaryFile` probe) throwing inside `processSingleFile`. -/
inductive FsEntry where
  | dir (name : String) (children : List FsEntry)
  | file (name : String) (size : Nat) (isBinary : Bool) (content : String)
      (statFails : Bool) (readFails : Bool)
  | special (name : String)
  deriving Repr

/-- The mutable accumulation state closed over by the JS helpers:
`output`, `processedFiles`, `skippedFiles`. -/
structure Acc where
  output : String
  processedFiles : Nat
  skippedFiles : Nat
  deriving Repr, DecidableEq

/-- The 80-wide `"=".repeat(80)` separator line. -/
def sepLine : String := String.mk (List.replicate 80 '=')

/-- Abstract model of the external `filesize` formatting library. -/
def formatFileSize (n : Nat) : String := toString n ++ " B"

/-- The delimited record appended to `output` for one admitted file. -/
def fileRecord (o : Options) (fullPath : Path) (size : Nat) (content : String) : String :=
  "\n" ++ sepLine ++ "\n" ++
  "File: " ++ renderPath (pathRelative o.repoRoot fullPath) ++ "\n" ++
  "Size: " ++ formatFileSize size ++ "\n" ++
  sepLine ++ "\n\n" ++ content ++ "\n"

/-- The file-name exclusion test of `processSingleFile`:
`exclusions.fileExclusions.includes(fileName) || exclusions.prefixExclusions.some(p => fileName.startsWith(p))`. -/
def fileNameExcluded (excl : Exclusions) (fileName : String) : Bool :=
  excl.fileExclusions.contains fileName ||
    excl.prefixExclusions.any (fun pre => strStartsWith fileName pre)

/-- The directory exclusion test of `processDirectory`:
`exclusions.directoryExclusions.includes(entry.name) || exclusions.prefixExclusions.some(p => entry.name.startsWith(p))`. -/
def dirNameExcluded (excl : Exclusions) (name : String) : Bool :=
  excl.directoryExclusions.contains name ||
    excl.prefixExclusions.any (fun pre => strStartsWith name pre)

/-- Embeds `processSingleFile(fullPath, stats)`: name/prefix exclusion, size
threshold and binary sniff (all only when `includeAll` is unset), then the read;
any failure in the `try` body increments `skippedFiles`. -/
def processSingleFile (o : Options) (fullPath : Path) (size : Nat) (isBinary : Bool)
    (content : String) (readFails : Bool) (acc : Acc) : Acc :=
  if !o.includeAll && fileNameExcluded o.excl (basename fullPath) then
    { acc with skippedFiles := acc.skippedFiles + 1 }
  else if !o.includeAll && decide (size > thresholdBytes o) then
    { acc with skippedFiles := acc.skippedFiles + 1 }
  else if !o.includeAll && isBinary then
    { acc with skippedFiles := acc.skippedFiles + 1 }
  else if readFails then
    { acc with skippedFiles := acc.skippedFiles + 1 }
  else
    { acc with
      output := acc.output ++ fileRecord o fullPath size content
      processedFiles := acc.processedFiles + 1 }

mutual

/-- Embeds the `for (const entry of entries)` body of `processDirectory`:
excluded directories are skipped (`continue`), other directories are recursed
into, regular files are stat'ed (a stat failure counts as skipped) and passed to
`processSingleFile`, and non-file non-directory entries are ignored. -/
def processEntry (o : Options) (dirPath : Path) (e : FsEntry) (acc : Acc) : Acc :=
  match e with
  | .dir name children =>
    if !o.includeAll && dirNameExcluded o.excl name then acc
    else processDirectory o (dirPath ++ [name]) children acc
  | .file name size isBinary content statFails readFails =>
    if statFails then { acc with skippedFiles := acc.skippedFiles + 1 }
    else processSingleFile o (dirPath ++ [name]) size isBinary content readFails acc
  | .special _ => acc

/-- Embeds `processDirectory(dir)`: iterate the directory listing in order,
threading the closed-over accumulation state. -/
def processDirectory (o : Options) (dirPath : Path) (entries : List FsEntry) (acc : Acc) : Acc :=
  match entries with
  | [] => acc
  | e :: es => processDirectory o dirPath es (processEntry o dirPath e acc)

end

/-- Specification view of one file: the record it emits if admitted, `none` if
it is rejected by a filter or fails to be read. -/
def fileOutcome (o : Options) (fullPath : Path) (size : Nat) (isBinary : Bool)
    (content : String) (readFails : Bool) : Option String :=
  if !o.includeAll && fileNameExcluded o.excl (basename fullPath) then none
  else if !o.includeAll && decide (size > thresholdBytes o) then none
  else if !o.includeAll && isBinary then none
  else if readFails then none
  else some (fileRecord o fullPath size content)

mutual

/-- Specification view of a traversal: the list of emitted records and the
number of skipped files, for one entry. -/
def entryTrace (o : Options) (dirPath : Path) (e : FsEntry) : List String × Nat :=
  match e with
  | .dir name children =>
    if !o.includeAll && dirNameExcluded o.excl name then ([], 0)
    else dirTrace o (dirPath ++ [name]) children
  | .file name size isBinary content statFails readFails =>
    if statFails then ([], 1)
    else
      match fileOutcome o (dirPath ++ [name]) size isBinary content readFails with
      | none => ([], 1)
      | some rec_ => ([rec_], 0)
  | .special _ => ([], 0)

/-- Specification view of a traversal: records and skip count for a listing. -/
def dirTrace (o : Options) (dirPath : Path) (entries : List FsEntry) : List String × Nat :=
  match entries with
  | [] => ([], 0)
  | e :: es =>
    let t := entryTrace o dirPath e
    let ts := dirTrace o dirPath es
    (t.1 ++ ts.1, t.2 + ts.2)

end

theorem join_nil : String.join [] = "" := rfl

theorem join_cons (s : String) (l : List String) :
    String.join (s :: l) = s ++ String.join l := by
  apply String.ext
  simp

theorem join_append (l₁ l₂ : List String) :
    String.join (l₁ ++ l₂) = String.join l₁ ++ String.join l₂ := by
  apply String.ext
  simp

theorem processSingleFile_trace (o : Options) (fullPath : Path) (size : Nat)
    (isBinary : Bool) (content : String) (readFails : Bool) (acc : Acc) :
    processSingleFile o fullPath size isBinary content readFails acc =
      match fileOutcome o fullPath size isBinary content readFails with
      | none => { acc with skippedFiles := acc.skippedFiles + 1 }
      | some r =>
        { acc with
          output := acc.output ++ r
          processedFiles := acc.processedFiles + 1 } := by
  unfold processSingleFile fileOutcome
  split_ifs <;> rfl

mutual

theorem processEntry_trace (o : Options) (dirPath : Path) (e : FsEntry) (acc : Acc) :
    processEntry o dirPath e acc =
      { output := acc.output ++ String.join (entryTrace o dirPath e).1
        processedFiles := acc.processedFiles + (entryTrace o dirPath e).1.length
        skippedFiles := acc.skippedFiles + (entryTrace o dirPath e).2 } := by
  match e with
  | .dir name children =>
    unfold processEntry entryTrace
    by_cases h : (!o.includeAll && dirNameExcluded o.excl name) = true
    · simp [h, join_nil]
    · simp only [h, if_false, Bool.false_eq_true]
      exact processDirectory_trace o (dirPath ++ [name]) children acc
  | .file name size isBinary content statFails readFails =>
    unfold processEntry entryTrace
    by_cases h : statFails = true
    · simp [h, join_nil]
    · simp only [h, if_false, Bool.false_eq_true]
      rw [processSingleFile_trace]
      cases fileOutcome o (dirPath ++ [name]) size isBinary content readFails <;>
        simp [join_nil, join_cons]
  | .special name =>
    unfold processEntry entryTrace
    simp [join_nil]

theorem processDirectory_trace (o : Options) (dirPath : Path) (entries : List FsEntry)
    (acc : Acc) :
    processDirectory o dirPath entries acc =
      { output := acc.output ++ String.join (dirTrace o dirPath entries).1
        processedFiles := acc.processedFiles + (dirTrace o dirPath entries).1.length
        skippedFiles := acc.skippedFiles + (dirTrace o dirPath entries).2 } := by
  match entries with
  | [] =>
    unfold processDirectory dirTrace
    simp [String.join]
  | e :: es =>
    unfold processDirectory dirTrace
    rw [processEntry_trace o dirPath e acc, processDirectory_trace o dirPath es]
    simp [join_append, String.append_assoc, Nat.add_assoc]

end

theorem entryTrace_file_count (o : Options) (dirPath : Path) (name : String) (size : Nat)
    (isBinary : Bool) (content : String) (statFails readFails : Bool) :
    (entryTrace o dirPath (.file name size isBinary content statFails readFails)).1.length +
      (entryTrace o dirPath (.file name size isBinary content statFails readFails)).2 = 1 := by
  unfold entryTrace
  by_cases h : statFails = true
  · simp [h]
  · simp only [h, if_false, Bool.false_eq_true]
    cases fileOutcome o (dirPath ++ [name]) size isBinary content readFails <;> simp

/-- C6: with `includeAll` unset, `processDirectory` never descends into a directory
whose name matches a directory exclusion (name match or prefix match): the
directory entry leaves the accumulated output, `processedFiles` and
`skippedFiles` untouched whatever its subtree holds, and dropping it from the
listing does not change the traversal's result. -/
theorem c6_excluded_directories_pruned (threshold : Nat) (repoRoot : Path)
    (excl : Exclusions) (dirPath : Path) (name : String) (children : List FsEntry)
    (pre post : List FsEntry) (acc : Acc)
    (h : dirNameExcluded excl name = true) :
    processEntry ⟨threshold, false, repoRoot, excl⟩ dirPath (.dir name children) acc = acc ∧
    processDirectory ⟨threshold, false, repoRoot, excl⟩ dirPath
        (pre ++ .dir name children :: post) acc =
      processDirectory ⟨threshold, false, repoRoot, excl⟩ dirPath (pre ++ post) acc := by
  have hskip : ∀ a : Acc,
      processEntry ⟨threshold, false, repoRoot, excl⟩ dirPath (.dir name children) a = a := by
    intro a
    unfold processEntry
    simp [h]
  refine ⟨hskip acc, ?_⟩
  induction pre generalizing acc with
  | nil =>
    simp only [List.nil_append]
    conv_lhs => unfold processDirectory
    rw [hskip acc]
  | cons e es ih =>
    simp only [List.cons_append]
    unfold processDirectory
    exact ih _

/-- C6 witness: a concrete `node_modules` directory full of files is pruned. -/
theorem c6_excluded_directories_pruned_witness :
    dirNameExcluded defaultExclusions "node_modules" = true ∧
    processEntry ⟨10, false, ["repo"], defaultExclusions⟩ ["repo"]
        (.dir "node_modules" [.file "big.js" 5 false "x" false false]) ⟨"", 0, 0⟩ = ⟨"", 0, 0⟩ ∧
    processDirectory ⟨10, false, ["repo"], defaultExclusions⟩ ["repo"]
        ([] ++ .dir "node_modules" [.file "big.js" 5 false "x" false false] ::
          [.special "sock"]) ⟨"", 0, 0⟩ =
      processDirectory ⟨10, false, ["repo"], defaultExclusions⟩ ["repo"]
        ([] ++ [.special "sock"]) ⟨"", 0, 0⟩ := by
  refine ⟨by decide, ?_, ?_⟩
  · exact (c6_excluded_directories_pruned 10 ["repo"] defaultExclusions ["repo"]
      "node_modules" [.file "big.js" 5 false "x" false false] []
      [.special "sock"] ⟨"", 0, 0⟩ (by decide)).1
  · exact (c6_excluded_directories_pruned 10 ["repo"] defaultExclusions ["repo"]
      "node_modules" [.file "big.js" 5 false "x" false false] []
      [.special "sock"] ⟨"", 0, 0⟩ (by decide)).2

/-- C7: with `includeAll` unset, a file whose size exceeds the byte threshold is
counted as exactly one skipped file, leaves `processedFiles` and the output
untouched, and emits no record (so no part of its content enters the
concatenated output). -/
theorem c7_oversize_file_skipped (o : Options) (fullPath : Path) (size : Nat)
    (isBinary : Bool) (content : String) (readFails : Bool) (acc : Acc)
    (hall : o.includeAll = false) (hsize : size > thresholdBytes o) :
    processSingleFile o fullPath size isBinary content readFails acc =
      { acc with skippedFiles := acc.skippedFiles + 1 } ∧
    fileOutcome o fullPath size isBinary content readFails = none := by
  unfold processSingleFile fileOutcome
  rw [hall]
  by_cases h : fileNameExcluded o.excl (basename fullPath) = true
  · simp [h]
  · simp [h, hsize]

/-- C7 witness: a 2 MB file against a 1 MB threshold is skipped and unrecorded. -/
theorem c7_oversize_file_skipped_witness :
    ((⟨1, false, ["repo"], defaultExclusions⟩ : Options).includeAll = false ∧
      2097153 > thresholdBytes ⟨1, false, ["repo"], defaultExclusions⟩) ∧
    (processSingleFile ⟨1, false, ["repo"], defaultExclusions⟩ ["repo", "big.bin"]
        2097153 false "payload" false ⟨"", 3, 4⟩ = ⟨"", 3, 5⟩ ∧
      fileOutcome ⟨1, false, ["repo"], defaultExclusions⟩ ["repo", "big.bin"]
        2097153 false "payload" false = none) :=
  ⟨⟨rfl, by decide⟩,
    c7_oversize_file_skipped ⟨1, false, ["repo"], defaultExclusions⟩ ["repo", "big.bin"]
      2097153 false "payload" false ⟨"", 3, 4⟩ rfl (by decide)⟩

/-- C10: every regular file examined by the traversal (inside a non-pruned
directory) increments exactly one of `processedFiles`/`skippedFiles`, and the
traversal's output is exactly the concatenation of the records of the processed
files, with `processedFiles` equal to the number of emitted records. -/
theorem c10_traversal_accounting :
    (∀ (o : Options) (dirPath : Path) (name : String) (size : Nat) (isBinary : Bool)
        (content : String) (statFails readFails : Bool) (acc : Acc),
      (processEntry o dirPath (.file name size isBinary content statFails readFails)
          acc).processedFiles +
        (processEntry o dirPath (.file name size isBinary content statFails readFails)
          acc).skippedFiles =
        acc.processedFiles + acc.skippedFiles + 1) ∧
    (∀ (o : Options) (dirPath : Path) (entries : List FsEntry) (acc : Acc),
      processDirectory o dirPath entries acc =
        { output := acc.output ++ String.join (dirTrace o dirPath entries).1
          processedFiles := acc.processedFiles + (dirTrace o dirPath entries).1.length
          skippedFiles := acc.skippedFiles + (dirTrace o dirPath entries).2 }) := by
  constructor
  · intro o dirPath name size isBinary content statFails readFails acc
    rw [processEntry_trace]
    have := entryTrace_file_count o dirPath name size isBinary content statFails readFails
    simp only []
    omega
  · intro o dirPath entries acc
    exact processDirectory_trace o dirPath entries acc

/-! ## Export analyzer (`getExportsFromFile`, `src/unnamed/part_003`) -/

/-- A declarator of an exported `VariableDeclaration`: either an identifier
binding (`decl.id.name` present) or a destructuring pattern (`decl.id.name` is
undefined; the bound names sit inside the pattern and appear in the file text). -/
inductive Declarator where
  | ident (name : String)
  | pattern (names : List String)
  deriving Repr, DecidableEq

/-- The `declaration` field of an `ExportNamedDeclaration`: a variable
declaration with its declarators, or a function/class declaration carrying
`declaration.id?.name`. -/
inductive ExportDecl where
  | varDecl (declarators : List Declarator)
  | withId (name : Option String)
  deriving Repr, DecidableEq

/-- The AST shapes the analyzer's walker reacts to; `plain` stands for all other
source text, whose identifier words still matter to the whole-word text search. -/
inductive AstNode where
  | exportNamed (declaration : Option ExportDecl) (specifiers : List String)
  | exportDefault
  | exportAll (exported : Option String)
  | plain (words : List String)
  deriving Repr, DecidableEq

/-- A source file as the analyzers and the text search see it: whether `acorn`
parses it, the (relevant) AST, and whether reading it fails. For an unparseable
file the `ast` field only carries its word content (via `plain` nodes). -/
structure SourceFile where
  parseOk : Bool
  ast : List AstNode
  readFails : Bool
  deriving Repr, DecidableEq

/-- Insertion into a JS `Set` (insertion-ordered, deduplicating). -/
def insertUnique {α : Type} [DecidableEq α] (l : List α) (a : α) : List α :=
  if a ∈ l then l else l ++ [a]

/-- The walker state: `exports.named`, `exports.default`, `exports.namespaces`. -/
structure ExportWalk where
  named : List String
  dflt : Bool
  namespaces : List String
  deriving Repr, DecidableEq

/-- One step of the declarator loop: `if (decl.id.name) exports.named.add(decl.id.name)`.
A destructuring pattern has no `id.name`, so it adds nothing. -/
def declaratorAdd (acc : List String) : Declarator → List String
  | .ident n => if n ≠ "" then insertUnique acc n else acc
  | .pattern _ => acc

/-- One step of the specifier loop: `if (spec.exported?.name) exports.named.add(...)`. -/
def specAdd (acc : List String) (s : String) : List String :=
  if s ≠ "" then insertUnique acc s else acc

/-- One visited node of the `walk.simple` pass of `getExportsFromFile`. -/
def walkNode (acc : ExportWalk) : AstNode → ExportWalk
  | .exportNamed d specs =>
    let withDecl :=
      match d with
      | some (.varDecl ds) => ds.foldl declaratorAdd acc.named
      | some (.withId (some n)) => if n ≠ "" then insertUnique acc.named n else acc.named
      | some (.withId none) => acc.named
      | none => acc.named
    { acc with named := specs.foldl specAdd withDecl }
  | .exportDefault => { acc with dflt := true }
  | .exportAll (some x) => { acc with namespaces := insertUnique acc.namespaces x }
  | .exportAll none => acc
  | .plain _ => acc

/-- Embeds `getExportsFromFile` (part_003 lines 8–61): read and parse the file,
walk the AST collecting named exports, a default flag and namespace re-export
names, and return `[...named, ...(default ? ["default"] : []), ...namespaces]`.
A read or parse failure is logged and re-thrown (`Except.error`). -/
def getExportsFromFile (f : SourceFile) : Except Unit (List String) :=
  if f.readFails || !f.parseOk then .error ()
  else
    let w := f.ast.foldl walkNode ⟨[], false, []⟩
    .ok (w.named ++ (if w.dflt then ["default"] else []) ++ w.namespaces)

/-- The identifier words of a declarator as they appear in the file text
(destructuring patterns spell out their bound names in the source). -/
def declaratorWords : Declarator → List String
  | .ident n => [n]
  | .pattern ns => ns

/-- The identifier words contributed by one AST node to the raw file text. -/
def astNodeWords : AstNode → List String
  | .exportNamed d specs =>
    (match d with
      | some (.varDecl ds) => (ds.map declaratorWords).flatten
      | some (.withId (some n)) => [n]
      | some (.withId none) => []
      | none => []) ++ specs
  | .exportDefault => ["default"]
  | .exportAll (some x) => [x]
  | .exportAll none => []
  | .plain ws => ws

/-- The whole words of a file's text, as `grep -w` sees them. This is defined
from the AST so that every exported identifier is also a word of the text. -/
def fileWords (f : SourceFile) : List String :=
  (f.ast.map astNodeWords).flatten

/-! ## Dependency resolver (`getDirectDependencies` /
`findPackageEntryPointRelativePath`, `src/unnamed/part_005`) -/

/-- One record of `getImportsFromFile`'s output (and the resolver's input):
`{ function?: localName, package: moduleSpecifier }`. -/
structure ImportRef where
  function : Option String
  pkg : String
  deriving Repr, DecidableEq

/-- A workspace-index entry as loaded by `loadWorkspaceIndex`
(`{name, path, description, exports}` with `path` relative to the repo root). -/
structure PkgRecord where
  name : String
  path : Path
  description : String
  exports : List (String × String)
  deriving Repr, DecidableEq

/-- `Map.prototype.get`. -/
def mapGet {α : Type} (m : List (String × α)) (k : String) : Option α :=
  (m.find? (fun kv => kv.1 = k)).map (fun kv => kv.2)

/-- `Map.prototype.set` on the association-list model of a JS `Map` (whose keys
are unique): replace the entry in place if the key exists, else append. -/
def mapSet {α : Type} : List (String × α) → String → α → List (String × α)
  | [], k, v => [(k, v)]
  | kv :: rest, k, v =>
    if kv.1 = k then (k, v) :: rest else kv :: mapSet rest k v

/-- The repository contents visible to the resolver's recursive text search. -/
structure Repo where
  files : List (Path × SourceFile)
  deriving Repr

/-- The recognized source extensions of `findPackageEntryPointRelativePath`. -/
def sourceExtensions : List String := [".js", ".jsx", ".ts", ".tsx", ".mjs", ".cjs"]

/-- `extensions.some(ext => filePath.endsWith(ext))`; extensions contain no
slash, so this is a check on the last path component. -/
def hasValidExtension (p : Path) : Bool :=
  sourceExtensions.any (fun ext => strEndsWith (basename p) ext)

/-- Models `grep -rw word dir`: the files under `dir` whose text contains `word`
as a whole word. Several matching lines inside one file only make the JS loop
re-analyze the same candidate, and the result `Set` deduplicates, so one entry
per matching file is observationally the same. -/
def grepMatches (repo : Repo) (dir : Path) (word : String) : List (Path × SourceFile) :=
  repo.files.filter (fun pf => dir.isPrefixOf pf.1 && (fileWords pf.2).contains word)

/-- How the resolver can throw. -/
inductive ResolveError where
  | typeError
  | analysisError
  deriving Repr, DecidableEq

/-- The `for (const line of lines)` loop: skip candidates without a recognized
extension, run the export analyzer (whose failure is re-thrown), and collect
`path.relative(repoRoot, filePath)` for candidates that export the symbol into
the `filePathOptions` set. `exports.includes(undefined)` is `false`, so a
missing `functionName` never keeps a candidate. -/
def collectCandidates (repoRoot : Path) (functionName : Option String)
    (acc : List Path) : List (Path × SourceFile) → Except ResolveError (List Path)
  | [] => .ok acc
  | (p, f) :: rest =>
    if hasValidExtension p then
      match getExportsFromFile f with
      | .error _ => .error .analysisError
      | .ok exps =>
        let keep :=
          match functionName with
          | some s => exps.contains s
          | none => false
        collectCandidates repoRoot functionName
          (if keep then insertUnique acc (pathRelative repoRoot p) else acc) rest
    else collectCandidates repoRoot functionName acc rest

/-- Embeds `findPackageEntryPointRelativePath`. The registry lookup happens
before the `try`: a package name absent from the index makes `packageInfo.path`
throw a `TypeError`. A `grep` with no matches exits with code 1, which the
`catch` turns into `null` (`.ok none`). The template literal renders a missing
`functionName` as the literal search word `"undefined"`. -/
def findPackageEntryPointRelativePath (packageName : String)
    (functionName : Option String) (workspaceIndex : List (String × PkgRecord))
    (repoRoot : Path) (repo : Repo) : Except ResolveError (Option (List Path)) :=
  match mapGet workspaceIndex packageName with
  | none => .error .typeError
  | some info =>
    let fullPackageDir := pathJoin repoRoot info.path
    let search := functionName.getD "undefined"
    match grepMatches repo fullPackageDir search with
    | [] => .ok none
    | ms => (collectCandidates repoRoot functionName [] ms).map (fun l => some l)

/-- The `for (const importItem of imports)` loop of `getDirectDependencies`:
a thrown error is logged and re-thrown; a `null` resolution contributes nothing;
a returned array (possibly empty) is spread into the result list. -/
def resolveImportsLoop (repoRoot : Path) (workspaceIndex : List (String × PkgRecord))
    (repo : Repo) : List ImportRef → List Path → Except ResolveError (List Path)
  | [], acc => .ok acc
  | i :: rest, acc =>
    match findPackageEntryPointRelativePath i.pkg i.function workspaceIndex repoRoot repo with
    | .error e => .error e
    | .ok none => resolveImportsLoop repoRoot workspaceIndex repo rest acc
    | .ok (some ps) => resolveImportsLoop repoRoot workspaceIndex repo rest (acc ++ ps)

/-- Embeds `getDirectDependencies` (part_005 lines 135–173): start from the
originating file itself and accumulate each import's resolved paths. -/
def getDirectDependencies (filePath : Path) (repoRoot : Path)
    (workspaceIndex : List (String × PkgRecord)) (imports : List ImportRef)
    (repo : Repo) : Except ResolveError (List Path) :=
  resolveImportsLoop repoRoot workspaceIndex repo imports [filePath]

/-- C1: with package `pkg-a` registered at `repo/pkg-a` and exactly one file
`repo/pkg-a/index.js` whose Export Analyzer result contains the imported symbol
`foo` as a named export, dependency resolution of `repo/src/main.js` returns the
originating file and the repo-root-relative path `pkg-a/index.js`; the file's
absolute path `repo/pkg-a/index.js` is not in the result, contradicting the
claim (and `getDirectDependencies`' own JSDoc, which promises absolute paths). -/
theorem c1_resolver_returns_relative_path :
    getExportsFromFile ⟨true, [.exportNamed (some (.varDecl [.ident "foo"])) []], false⟩ =
      .ok ["foo"] ∧
    getDirectDependencies ["repo", "src", "main.js"] ["repo"]
        [("pkg-a", ⟨"pkg-a", [".", "pkg-a"], "", []⟩)]
        [⟨some "foo", "pkg-a"⟩]
        ⟨[(["repo", "pkg-a", "index.js"],
            ⟨true, [.exportNamed (some (.varDecl [.ident "foo"])) []], false⟩)]⟩ =
      .ok [["repo", "src", "main.js"], ["pkg-a", "index.js"]] ∧
    (["repo", "pkg-a", "index.js"] : Path) ∉
      [(["repo", "src", "main.js"] : Path), ["pkg-a", "index.js"]] :=
  ⟨rfl, rfl, by decide⟩

/-- C2: an ImportReference whose `modulePath` is not a registered package name
makes the resolver throw (`workspaceIndex.get(...)` is `undefined` and reading
`.path` raises a `TypeError`), aborting the originating file's resolution —
contradicting the claim that such a reference contributes nothing and raises no
error. A reference with no `importedSymbol` whose package is registered does
behave as claimed: it contributes nothing and raises nothing. -/
theorem c2_unknown_package_reference_throws :
    getDirectDependencies ["repo", "src", "main.js"] ["repo"]
        [("pkg-a", ⟨"pkg-a", [".", "pkg-a"], "", []⟩)]
        [⟨some "readFile", "fs"⟩] ⟨[]⟩ =
      .error .typeError ∧
    getDirectDependencies ["repo", "src", "main.js"] ["repo"]
        [("pkg-a", ⟨"pkg-a", [".", "pkg-a"], "", []⟩)]
        [⟨none, "pkg-a"⟩]
        ⟨[(["repo", "pkg-a", "util.js"], ⟨true, [.plain ["undefined"]], false⟩)]⟩ =
      .ok [["repo", "src", "main.js"]] :=
  ⟨rfl, rfl⟩

theorem collectCandidates_error (repoRoot : Path) (fn : Option String) :
    ∀ (ms : List (Path × SourceFile)) (acc : List Path) (p : Path) (f : SourceFile),
      (p, f) ∈ ms → hasValidExtension p = true → getExportsFromFile f = .error () →
      ∃ e, collectCandidates repoRoot fn acc ms = .error e := by
  intro ms
  induction ms with
  | nil =>
    intro acc p f h _ _
    simp at h
  | cons pf rest ih =>
    intro acc p f hmem hext herr
    obtain ⟨q, g⟩ := pf
    rcases List.mem_cons.mp hmem with heq | hmem'
    · injection heq with h1 h2
      subst h1
      subst h2
      unfold collectCandidates
      rw [if_pos hext, herr]
      exact ⟨.analysisError, rfl⟩
    · unfold collectCandidates
      by_cases hqe : hasValidExtension q = true
      · rw [if_pos hqe]
        cases hg : getExportsFromFile g with
        | error u => exact ⟨.analysisError, rfl⟩
        | ok exps => exact ih _ p f hmem' hext herr
      · rw [if_neg hqe]
        exact ih _ p f hmem' hext herr

theorem resolveImportsLoop_error (repoRoot : Path) (widx : List (String × PkgRecord))
    (repo : Repo) :
    ∀ (imports : List ImportRef) (acc : List Path) (r : ImportRef),
      r ∈ imports →
      (∃ e, findPackageEntryPointRelativePath r.pkg r.function widx repoRoot repo = .error e) →
      ∃ e, resolveImportsLoop repoRoot widx repo imports acc = .error e := by
  intro imports
  induction imports with
  | nil =>
    intro acc r h _
    simp at h
  | cons i rest ih =>
    intro acc r hmem herr
    unfold resolveImportsLoop
    cases hi : findPackageEntryPointRelativePath i.pkg i.function widx repoRoot repo with
    | error e2 => exact ⟨e2, rfl⟩
    | ok o2 =>
      rcases List.mem_cons.mp hmem with heq | hmem'
      · subst heq
        obtain ⟨e, herr⟩ := herr
        rw [herr] at hi
        cases hi
      · cases o2 with
        | none => exact ih _ r hmem' herr
        | some ps => exact ih _ r hmem' herr

theorem findPackageEntryPoint_error_of_failing_candidate (packageName : String)
    (s : String) (widx : List (String × PkgRecord)) (repoRoot : Path) (repo : Repo)
    (info : PkgRecord) (p : Path) (f : SourceFile)
    (hlookup : mapGet widx packageName = some info)
    (hfile : (p, f) ∈ repo.files)
    (hunder : (pathJoin repoRoot info.path).isPrefixOf p = true)
    (hword : (fileWords f).contains s = true)
    (hext : hasValidExtension p = true)
    (herr : getExportsFromFile f = .error ()) :
    ∃ e, findPackageEntryPointRelativePath packageName (some s) widx repoRoot repo = .error e := by
  have hmem : (p, f) ∈ grepMatches repo (pathJoin repoRoot info.path) s := by
    unfold grepMatches
    refine List.mem_filter.mpr ⟨hfile, ?_⟩
    simp only [hunder, hword, Bool.and_self]
  unfold findPackageEntryPointRelativePath
  rw [hlookup]
  simp only [Option.getD]
  cases hms : grepMatches repo (pathJoin repoRoot info.path) s with
  | nil =>
    rw [hms] at hmem
    simp at hmem
  | cons m ms' =>
    rw [hms] at hmem
    obtain ⟨e, hc⟩ := collectCandidates_error repoRoot (some s) (m :: ms') [] p f hmem hext herr
    refine ⟨e, ?_⟩
    show Except.map (fun l => some l) (collectCandidates repoRoot (some s) [] (m :: ms')) =
      Except.error e
    rw [hc]
    rfl

/-- C3 counterexample: `repo/pkg-b/broken.js` matches the text search for `bar`
but fails to parse; the resolver for `repo/src/main.js` does not treat the
candidate as contributing nothing — the re-thrown analysis failure aborts the
whole resolution, so it does not complete. -/
theorem c3_candidate_failure_propagates :
    getDirectDependencies ["repo", "src", "main.js"] ["repo"]
        [("pkg-b", ⟨"pkg-b", [".", "pkg-b"], "", []⟩)]
        [⟨some "bar", "pkg-b"⟩]
        ⟨[(["repo", "pkg-b", "broken.js"], ⟨false, [.plain ["bar"]], false⟩)]⟩ =
      .error .analysisError :=
  rfl

/-- C3 amended: a read or parse failure on a candidate file (a file under the
imported package's directory that matches the whole-word search and carries a
recognized source extension) is logged but re-thrown: it aborts the entire
dependency resolution of the originating file instead of aborting only that
candidate. -/
theorem c3_candidate_failure_aborts_resolution (origin repoRoot : Path)
    (widx : List (String × PkgRecord)) (repo : Repo) (imports : List ImportRef)
    (r : ImportRef) (s : String) (info : PkgRecord) (p : Path) (f : SourceFile)
    (hr : r ∈ imports) (hs : r.function = some s)
    (hlookup : mapGet widx r.pkg = some info)
    (hfile : (p, f) ∈ repo.files)
    (hunder : (pathJoin repoRoot info.path).isPrefixOf p = true)
    (hword : (fileWords f).contains s = true)
    (hext : hasValidExtension p = true)
    (herr : getExportsFromFile f = .error ()) :
    ∃ e, getDirectDependencies origin repoRoot widx imports repo = .error e := by
  unfold getDirectDependencies
  refine resolveImportsLoop_error repoRoot widx repo imports [origin] r hr ?_
  rw [hs]
  exact findPackageEntryPoint_error_of_failing_candidate r.pkg s widx repoRoot repo
    info p f hlookup hfile hunder hword hext herr

/-- C3 witness: the amended theorem applied to a concrete repository with one
unparseable candidate. -/
theorem c3_candidate_failure_aborts_resolution_witness :
    (⟨some "bar", "pkg-b"⟩ : ImportRef) ∈ [(⟨some "bar", "pkg-b"⟩ : ImportRef)] ∧
    (⟨some "bar", "pkg-b"⟩ : ImportRef).function = some "bar" ∧
    mapGet [("pkg-b", (⟨"pkg-b", [".", "pkg-b"], "", []⟩ : PkgRecord))] "pkg-b" =
      some ⟨"pkg-b", [".", "pkg-b"], "", []⟩ ∧
    ((["repo", "pkg-b", "broken.js"] : Path), (⟨false, [.plain ["bar"]], false⟩ : SourceFile)) ∈
      [((["repo", "pkg-b", "broken.js"] : Path), (⟨false, [.plain ["bar"]], false⟩ : SourceFile))] ∧
    (pathJoin ["repo"] [".", "pkg-b"]).isPrefixOf ["repo", "pkg-b", "broken.js"] = true ∧
    (fileWords ⟨false, [.plain ["bar"]], false⟩).contains "bar" = true ∧
    hasValidExtension ["repo", "pkg-b", "broken.js"] = true ∧
    getExportsFromFile ⟨false, [.plain ["bar"]], false⟩ = .error () ∧
    (∃ e, getDirectDependencies ["repo", "src", "main.js"] ["repo"]
        [("pkg-b", ⟨"pkg-b", [".", "pkg-b"], "", []⟩)]
        [⟨some "bar", "pkg-b"⟩]
        ⟨[(["repo", "pkg-b", "broken.js"], ⟨false, [.plain ["bar"]], false⟩)]⟩ = .error e) :=
  ⟨by decide, rfl, rfl, by decide, by decide, by decide, by decide, rfl,
    c3_candidate_failure_aborts_resolution ["repo", "src", "main.js"] ["repo"]
      [("pkg-b", ⟨"pkg-b", [".", "pkg-b"], "", []⟩)]
      ⟨[(["repo", "pkg-b", "broken.js"], ⟨false, [.plain ["bar"]], false⟩)]⟩
      [⟨some "bar", "pkg-b"⟩] ⟨some "bar", "pkg-b"⟩ "bar"
      ⟨"pkg-b", [".", "pkg-b"], "", []⟩ ["repo", "pkg-b", "broken.js"]
      ⟨false, [.plain ["bar"]], false⟩
      (by decide) rfl rfl (by decide) (by decide) (by decide) (by decide) rfl⟩

/-- The names an identifier-bound declarator records; a destructuring pattern
has no `id.name` and records nothing. -/
def declaratorBound : Declarator → List String
  | .ident n => if n ≠ "" then [n] else []
  | .pattern _ => []

/-- The named-export names one AST node contributes to the analyzer's result. -/
def namedExportNames : AstNode → List String
  | .exportNamed d specs =>
    (match d with
      | some (.varDecl ds) => (ds.map declaratorBound).flatten
      | some (.withId (some n)) => if n ≠ "" then [n] else []
      | some (.withId none) => []
      | none => []) ++ specs.filter (fun s => s ≠ "")
  | _ => []

theorem mem_insertUnique {α : Type} [DecidableEq α] (l : List α) (b a : α) :
    a ∈ insertUnique l b ↔ a ∈ l ∨ a = b := by
  unfold insertUnique
  by_cases h : b ∈ l
  · simp only [h, if_true]
    constructor
    · exact Or.inl
    · rintro (ha | rfl)
      · exact ha
      · exact h
  · simp [h]

theorem mem_foldl_declaratorAdd (ds : List Declarator) :
    ∀ (l : List String) (a : String),
      a ∈ ds.foldl declaratorAdd l ↔ a ∈ l ∨ ∃ d ∈ ds, a ∈ declaratorBound d := by
  induction ds with
  | nil =>
    intro l a
    simp
  | cons d rest ih =>
    intro l a
    rw [List.foldl_cons, ih]
    cases d with
    | ident n =>
      by_cases hn : n = ""
      · subst hn
        simp [declaratorAdd, declaratorBound]
      · simp only [declaratorAdd, hn, ne_eq, not_false_iff, if_true,
          mem_insertUnique, declaratorBound, if_pos]
        simp [declaratorBound, hn]
        tauto
    | pattern ns =>
      simp [declaratorAdd, declaratorBound]

theorem mem_foldl_specAdd (specs : List String) :
    ∀ (l : List String) (a : String),
      a ∈ specs.foldl specAdd l ↔ a ∈ l ∨ (a ∈ specs ∧ a ≠ "") := by
  induction specs with
  | nil =>
    intro l a
    simp
  | cons s rest ih =>
    intro l a
    rw [List.foldl_cons, ih]
    by_cases hs : s = ""
    · subst hs
      have hsp : specAdd l "" = l := by simp [specAdd]
      rw [hsp]
      simp only [List.mem_cons]
      constructor
      · rintro (h | ⟨h1, h2⟩)
        · exact Or.inl h
        · exact Or.inr ⟨Or.inr h1, h2⟩
      · rintro (h | ⟨h1 | h1, h2⟩)
        · exact Or.inl h
        · exact absurd h1 h2
        · exact Or.inr ⟨h1, h2⟩
    · simp only [specAdd, hs, ne_eq, not_false_iff, if_true, mem_insertUnique]
      simp
      constructor
      · rintro ((h | rfl) | ⟨h1, h2⟩)
        · exact Or.inl h
        · exact Or.inr ⟨Or.inl rfl, hs⟩
        · exact Or.inr ⟨Or.inr h1, h2⟩
      · rintro (h | ⟨h1 | h1, h2⟩)
        · exact Or.inl (Or.inl h)
        · exact Or.inl (Or.inr h1)
        · exact Or.inr ⟨h1, h2⟩

theorem mem_walkNode_named (acc : ExportWalk) (n : AstNode) (a : String) :
    a ∈ (walkNode acc n).named ↔ a ∈ acc.named ∨ a ∈ namedExportNames n := by
  cases n with
  | exportNamed d specs =>
    simp only [walkNode]
    rw [mem_foldl_specAdd]
    have hfil : (a ∈ specs.filter (fun s => s ≠ "")) ↔ (a ∈ specs ∧ a ≠ "") := by
      simp [List.mem_filter]
    cases d with
    | none =>
      simp only [namedExportNames, List.nil_append]
      rw [hfil]
    | some dd =>
      cases dd with
      | varDecl ds =>
        rw [mem_foldl_declaratorAdd]
        simp only [namedExportNames, List.mem_append]
        rw [hfil]
        simp only [List.mem_flatten, List.mem_map]
        constructor
        · rintro ((h | ⟨dcl, hd, hb⟩) | h)
          · exact Or.inl h
          · exact Or.inr (Or.inl ⟨_, ⟨dcl, hd, rfl⟩, hb⟩)
          · exact Or.inr (Or.inr h)
        · rintro (h | (⟨_, ⟨dcl, hd, rfl⟩, hb⟩ | h))
          · exact Or.inl (Or.inl h)
          · exact Or.inl (Or.inr ⟨dcl, hd, hb⟩)
          · exact Or.inr h
      | withId nm =>
        cases nm with
        | none =>
          simp only [namedExportNames, List.nil_append]
          rw [hfil]
        | some x =>
          by_cases hx : x = ""
          · subst hx
            have he : ¬(("" : String) ≠ "") := by simp
            simp only [namedExportNames, if_neg he, List.nil_append]
            rw [hfil]
          · simp only [namedExportNames, hx, ne_eq, not_false_iff, if_true,
              mem_insertUnique, List.mem_append, List.mem_singleton]
            rw [hfil]
            tauto
  | exportDefault =>
    simp [walkNode, namedExportNames]
  | exportAll ex =>
    cases ex <;> simp [walkNode, namedExportNames]
  | plain ws =>
    simp [walkNode, namedExportNames]

theorem walkNode_dflt (acc : ExportWalk) (n : AstNode) :
    (walkNode acc n).dflt = (acc.dflt || decide (n = .exportDefault)) := by
  cases n with
  | exportNamed d specs => simp [walkNode]
  | exportDefault => simp [walkNode]
  | exportAll ex => cases ex <;> simp [walkNode]
  | plain ws => simp [walkNode]

theorem mem_walkNode_namespaces (acc : ExportWalk) (n : AstNode) (a : String) :
    a ∈ (walkNode acc n).namespaces ↔ a ∈ acc.namespaces ∨ n = .exportAll (some a) := by
  cases n with
  | exportNamed d specs => simp [walkNode]
  | exportDefault => simp [walkNode]
  | exportAll ex =>
    cases ex with
    | none => simp [walkNode]
    | some x =>
      simp [walkNode, mem_insertUnique, eq_comm]
  | plain ws => simp [walkNode]

theorem walk_fold_spec (ast : List AstNode) :
    ∀ (acc : ExportWalk) (a : String),
      (a ∈ (ast.foldl walkNode acc).named ↔
        a ∈ acc.named ∨ ∃ n ∈ ast, a ∈ namedExportNames n) ∧
      ((ast.foldl walkNode acc).dflt = true ↔
        acc.dflt = true ∨ AstNode.exportDefault ∈ ast) ∧
      (a ∈ (ast.foldl walkNode acc).namespaces ↔
        a ∈ acc.namespaces ∨ AstNode.exportAll (some a) ∈ ast) := by
  induction ast with
  | nil =>
    intro acc a
    simp
  | cons n rest ih =>
    intro acc a
    rw [List.foldl_cons]
    refine ⟨?_, ?_, ?_⟩
    · rw [(ih _ a).1, mem_walkNode_named]
      simp only [List.mem_cons]
      constructor
      · rintro ((h | h) | ⟨m, hm, hmem⟩)
        · exact Or.inl h
        · exact Or.inr ⟨n, Or.inl rfl, h⟩
        · exact Or.inr ⟨m, Or.inr hm, hmem⟩
      · rintro (h | ⟨m, rfl | hm, hmem⟩)
        · exact Or.inl (Or.inl h)
        · exact Or.inl (Or.inr hmem)
        · exact Or.inr ⟨m, hm, hmem⟩
    · rw [(ih _ a).2.1, walkNode_dflt]
      simp only [List.mem_cons, Bool.or_eq_true, decide_eq_true_eq]
      constructor
      · rintro ((h | h) | h)
        · exact Or.inl h
        · exact Or.inr (Or.inl h.symm)
        · exact Or.inr (Or.inr h)
      · rintro (h | (h | h))
        · exact Or.inl (Or.inl h)
        · exact Or.inl (Or.inr h.symm)
        · exact Or.inr h
    · rw [(ih _ a).2.2, mem_walkNode_namespaces]
      simp only [List.mem_cons]
      constructor
      · rintro ((h | h) | h)
        · exact Or.inl h
        · exact Or.inr (Or.inl h.symm)
        · exact Or.inr (Or.inr h)
      · rintro (h | (h | h))
        · exact Or.inl (Or.inl h)
        · exact Or.inl (Or.inr h.symm)
        · exact Or.inr h

/-- C9 counterexample: a destructured export declaration
(`export const {a, b} = obj`) has no `decl.id.name`, so its bindings `a`, `b`
never enter the ExportSet — the analyzer returns an empty export list. -/
theorem c9_destructured_bindings_dropped :
    getExportsFromFile ⟨true, [.exportNamed (some (.varDecl [.pattern ["a", "b"]])) []],
        false⟩ = .ok [] ∧
    ("a" : String) ∉ ([] : List String) :=
  ⟨rfl, by decide⟩

/-- C9 amended: for every parseable, readable file, the analyzer's export list
contains exactly: every identifier-bound binding of a named export declaration
(including each declarator of a multi-declarator declaration, but not bindings
introduced through destructuring patterns, which are dropped) and every
non-empty exported specifier name; the synthetic name `"default"` exactly when
the file has a default export declaration (or a specifier exported as
`default`, which is a default export); and `X` for every `export * as X`. -/
theorem c9_export_set_characterization (f : SourceFile) (s : String)
    (hp : f.parseOk = true) (hr : f.readFails = false) :
    ∃ exps, getExportsFromFile f = .ok exps ∧
      (s ∈ exps ↔ (∃ n ∈ f.ast, s ∈ namedExportNames n) ∨
        (s = "default" ∧ AstNode.exportDefault ∈ f.ast) ∨
        AstNode.exportAll (some s) ∈ f.ast) := by
  unfold getExportsFromFile
  rw [hp, hr]
  simp only [Bool.not_true, Bool.or_false, if_false, Bool.false_eq_true]
  refine ⟨_, rfl, ?_⟩
  have h := walk_fold_spec f.ast ⟨[], false, []⟩ s
  simp only [List.not_mem_nil, false_or, Bool.false_eq_true] at h
  obtain ⟨h1, h2, h3⟩ := h
  have hmid : (s ∈ if (f.ast.foldl walkNode ⟨[], false, []⟩).dflt then ["default"]
      else ([] : List String)) ↔
      (s = "default" ∧ AstNode.exportDefault ∈ f.ast) := by
    by_cases hd : (f.ast.foldl walkNode ⟨[], false, []⟩).dflt = true
    · simp only [hd, if_true, List.mem_singleton]
      rw [h2] at hd
      constructor
      · intro hs
        exact ⟨hs, hd⟩
      · intro hs
        exact hs.1
    · simp only [hd]
      rw [h2] at hd
      simp only [Bool.false_eq_true, if_false, List.not_mem_nil, false_iff]
      intro hs
      exact hd hs.2
  rw [List.mem_append, List.mem_append, h1, hmid, h3]
  exact or_assoc

/-- C9 witness: the characterization applied to a concrete file mixing an
identifier declarator, a dropped destructuring pattern, a specifier, a default
export and a namespace re-export. -/
theorem c9_export_set_characterization_witness :
    (⟨true, [.exportNamed (some (.varDecl [.ident "x", .pattern ["y"]])) ["z"],
        .exportDefault, .exportAll (some "ns")], false⟩ : SourceFile).parseOk = true ∧
    (⟨true, [.exportNamed (some (.varDecl [.ident "x", .pattern ["y"]])) ["z"],
        .exportDefault, .exportAll (some "ns")], false⟩ : SourceFile).readFails = false ∧
    (∃ exps, getExportsFromFile ⟨true,
        [.exportNamed (some (.varDecl [.ident "x", .pattern ["y"]])) ["z"],
          .exportDefault, .exportAll (some "ns")], false⟩ = .ok exps ∧
      (("y" : String) ∈ exps ↔
        (∃ n ∈ [AstNode.exportNamed (some (.varDecl [.ident "x", .pattern ["y"]])) ["z"],
            AstNode.exportDefault, AstNode.exportAll (some "ns")],
          ("y" : String) ∈ namedExportNames n) ∨
        (("y" : String) = "default" ∧ AstNode.exportDefault ∈
          [AstNode.exportNamed (some (.varDecl [.ident "x", .pattern ["y"]])) ["z"],
            AstNode.exportDefault, AstNode.exportAll (some "ns")]) ∨
        AstNode.exportAll (some "y") ∈
          [AstNode.exportNamed (some (.varDecl [.ident "x", .pattern ["y"]])) ["z"],
            AstNode.exportDefault, AstNode.exportAll (some "ns")])) :=
  ⟨rfl, rfl,
    c9_export_set_characterization
      ⟨true, [.exportNamed (some (.varDecl [.ident "x", .pattern ["y"]])) ["z"],
        .exportDefault, .exportAll (some "ns")], false⟩ "y" rfl rfl⟩

/-! ## Workspace package discovery (`findWorkspacePackages`, `src/unnamed/part_001`) -/

/-- The states the `pnpm-workspace.yaml` read can be in. `absent` (`ENOENT`) and
`unparseable` (the read or `yaml.load` throws) both land in the `catch` that
installs the fallback pattern; `invalidShape` (the YAML parses but the config is
falsy or has no `packages` array) throws nothing, so no pattern is ever
assigned; `patterns` carries the configured package-directory patterns as
component lists. -/
inductive WorkspaceYaml where
  | absent
  | unparseable
  | invalidShape
  | patterns (ps : List Path)
  deriving Repr, DecidableEq

/-- One discovered `package.json`: unreadable/unparsable, or parsed content with
an optional `name`, a `description` and an `exports` map (pass-through). -/
inductive ManifestContent where
  | invalid
  | parsed (name : Option String) (description : String)
      (exports : List (String × String))
  deriving Repr, DecidableEq

/-- What registry discovery sees of the repository: the workspace-manifest state
and every `package.json` in the tree (absolute paths, discovery order). -/
structure RepoFs where
  yaml : WorkspaceYaml
  manifests : List (Path × ManifestContent)
  deriving Repr

/-- The value stored in the registry `Map`: `{path, description, exports}`. -/
structure PkgInfo where
  path : Path
  description : String
  exports : List (String × String)
  deriving Repr, DecidableEq

/-- The warnings the registration loop can emit. There is no constructor for a
name collision: the loop has no duplicate check. -/
inductive RegistryWarning where
  | skippedInvalid (manifestPath : Path)
  | skippedNoName (manifestPath : Path)
  deriving Repr, DecidableEq

/-- The suffixes of a list, longest first (used to model `**`). -/
def allSuffixes {α : Type} : List α → List (List α)
  | [] => [[]]
  | a :: t => (a :: t) :: allSuffixes t

/-- Models the external `glob` library's matching on component patterns: `**`
matches any number of leading components, `*` exactly one arbitrary component,
anything else matches literally — the restricted pattern shapes this program
builds (`repoRoot/<configured dirs>/package.json`, `repoRoot/**/package.json`). -/
def matchGlob : List String → List String → Bool
  | [], cs => cs.isEmpty
  | p :: ps, cs =>
    if p = "**" then (allSuffixes cs).any (fun cs' => matchGlob ps cs')
    else
      match cs with
      | [] => false
      | c :: cs' => (decide (p = "*") || decide (p = c)) && matchGlob ps cs'

/-- Embeds the `for (const pkgJsonPath of packageJsonPaths)` loop of
`findWorkspacePackages`: an unreadable manifest warns and is skipped; a manifest
without a truthy `name` is skipped (warning only in debug mode); otherwise
`packages.set(name, {path: dirname, description, exports})` — last write wins
with no collision warning. -/
def registerManifests (debug : Bool) :
    List (Path × ManifestContent) →
    List (String × PkgInfo) × List RegistryWarning →
    List (String × PkgInfo) × List RegistryWarning
  | [], st => st
  | (p, .invalid) :: rest, (m, ws) =>
    registerManifests debug rest (m, ws ++ [.skippedInvalid p])
  | (p, .parsed name desc exps) :: rest, (m, ws) =>
    match name with
    | some n =>
      if n ≠ "" then
        registerManifests debug rest (mapSet m n ⟨p.dropLast, desc, exps⟩, ws)
      else
        registerManifests debug rest (m, ws ++ (if debug then [.skippedNoName p] else []))
    | none =>
      registerManifests debug rest (m, ws ++ (if debug then [.skippedNoName p] else []))

/-- The warnings one manifest contributes, independently of every other
manifest (so name collisions contribute none). -/
def manifestWarnings (debug : Bool) : Path × ManifestContent → List RegistryWarning
  | (p, .invalid) => [.skippedInvalid p]
  | (p, .parsed none _ _) => if debug then [.skippedNoName p] else []
  | (p, .parsed (some n) _ _) =>
    if n ≠ "" then [] else (if debug then [.skippedNoName p] else [])

/-- The error `glob(globPatterns)` raises when `globPatterns` stayed undefined. -/
inductive GlobError where
  | patternsUndefined
  deriving Repr, DecidableEq

/-- Embeds `findWorkspacePackages` (part_001 lines 14–94): try the workspace
manifest; a read or parse failure is caught and installs the fallback pattern
`repoRoot/**/package.json`; a config that parses but has no `packages` array
assigns nothing, so the later `glob(globPatterns)` call throws; otherwise the
matching manifests are registered in order. -/
def findWorkspacePackages (repoRoot : Path) (fs : RepoFs) (debug : Bool) :
    Except GlobError (List (String × PkgInfo) × List RegistryWarning) :=
  let globPatterns : Option (List Path) :=
    match fs.yaml with
    | .absent => some [repoRoot ++ ["**", "package.json"]]
    | .unparseable => some [repoRoot ++ ["**", "package.json"]]
    | .invalidShape => none
    | .patterns ps => some (ps.map (fun p => repoRoot ++ p ++ ["package.json"]))
  match globPatterns with
  | none => .error .patternsUndefined
  | some pats =>
    .ok (registerManifests debug
      (fs.manifests.filter (fun mf => pats.any (fun pat => matchGlob pat mf.1))) ([], []))

/-! ## Workspace index cache artifact (`src/helpers/workspaceIndex.js`) -/

/-- Embeds `createWorkspaceIndex` (workspaceIndex.js lines 6–45): with at least
one known package, serialize the registry as a record list whose `path` is
`"./" + path.relative(repoPath, packageDir)` (forward-slash separated); with no
packages the artifact is not written. -/
def createWorkspaceIndex (allPackages : List (String × PkgInfo)) (repoPath : Path) :
    Option (List PkgRecord) :=
  if allPackages.isEmpty then none
  else
    some (allPackages.map (fun kv =>
      ⟨kv.1, "." :: pathRelative repoPath kv.2.path, kv.2.description, kv.2.exports⟩))

/-- One step of `loadWorkspaceIndex`'s `forEach`: `if (pkg && pkg.name && pkg.path)
packageMap.set(pkg.name, pkg)`, else skip the entry with a debug warning. -/
def loadStep (m : List (String × PkgRecord)) (e : PkgRecord) :
    List (String × PkgRecord) :=
  if e.name ≠ "" ∧ e.path ≠ [] then mapSet m e.name e else m

/-- Embeds `loadWorkspaceIndex` (workspaceIndex.js lines 53–105): a missing or
unparsable artifact degrades to an empty map; entries lacking a truthy `name`
or `path` are skipped; the rest are `Map.set` in order. -/
def loadWorkspaceIndex (artifact : Option (List PkgRecord)) :
    List (String × PkgRecord) :=
  match artifact with
  | none => []
  | some entries => entries.foldl loadStep []

theorem mapGet_nil {α : Type} (k : String) : mapGet ([] : List (String × α)) k = none := rfl

theorem mapGet_cons {α : Type} (kv : String × α) (m : List (String × α)) (k : String) :
    mapGet (kv :: m) k = if kv.1 = k then some kv.2 else mapGet m k := by
  by_cases h : kv.1 = k <;> simp [mapGet, List.find?_cons, h]

theorem mapGet_mapSet_self {α : Type} (m : List (String × α)) (k : String) (v : α) :
    mapGet (mapSet m k v) k = some v := by
  induction m with
  | nil => simp [mapSet, mapGet_cons]
  | cons kv rest ih =>
    by_cases h : kv.1 = k
    · simp [mapSet, h, mapGet_cons]
    · simp [mapSet, h, mapGet_cons, ih]

theorem mapGet_mapSet_ne {α : Type} (m : List (String × α)) (k : String) (v : α)
    (n : String) (hne : n ≠ k) :
    mapGet (mapSet m k v) n = mapGet m n := by
  have hkn : ¬(k = n) := fun he => hne he.symm
  induction m with
  | nil =>
    simp only [mapSet, mapGet_cons, mapGet_nil]
    rw [if_neg hkn]
  | cons kv rest ih =>
    by_cases h : kv.1 = k
    · simp [mapSet, h, mapGet_cons, hkn]
    · simp only [mapSet, h, if_false, Bool.false_eq_true, mapGet_cons, ih]

theorem keys_mapSet {α : Type} (m : List (String × α)) (k : String) (v : α) :
    (mapSet m k v).map Prod.fst =
      if k ∈ m.map Prod.fst then m.map Prod.fst else m.map Prod.fst ++ [k] := by
  induction m with
  | nil => simp [mapSet]
  | cons kv rest ih =>
    by_cases h : kv.1 = k
    · simp [mapSet, h]
    · have hk : ¬(k = kv.1) := fun he => h he.symm
      simp only [mapSet, h, if_false, Bool.false_eq_true, List.map_cons, List.mem_cons, ih]
      by_cases hmem : k ∈ rest.map Prod.fst
      · simp [hmem, hk]
      · simp [hmem, hk]

theorem nodup_keys_mapSet {α : Type} (m : List (String × α)) (k : String) (v : α)
    (h : (m.map Prod.fst).Nodup) : ((mapSet m k v).map Prod.fst).Nodup := by
  rw [keys_mapSet]
  by_cases hmem : k ∈ m.map Prod.fst
  · simpa [hmem] using h
  · simp only [hmem, if_false]
    rw [← List.concat_eq_append]
    exact List.Nodup.concat hmem h

theorem registerManifests_nil (debug : Bool)
    (st : List (String × PkgInfo) × List RegistryWarning) :
    registerManifests debug [] st = st := rfl

theorem registerManifests_cons_invalid (debug : Bool) (p : Path)
    (rest : List (Path × ManifestContent)) (m : List (String × PkgInfo))
    (ws : List RegistryWarning) :
    registerManifests debug ((p, .invalid) :: rest) (m, ws) =
      registerManifests debug rest (m, ws ++ [.skippedInvalid p]) := rfl

theorem registerManifests_cons_noname (debug : Bool) (p : Path) (desc : String)
    (exps : List (String × String)) (rest : List (Path × ManifestContent))
    (m : List (String × PkgInfo)) (ws : List RegistryWarning) :
    registerManifests debug ((p, .parsed none desc exps) :: rest) (m, ws) =
      registerManifests debug rest
        (m, ws ++ (if debug then [.skippedNoName p] else [])) := rfl

theorem registerManifests_cons_emptyname (debug : Bool) (p : Path) (desc : String)
    (exps : List (String × String)) (rest : List (Path × ManifestContent))
    (m : List (String × PkgInfo)) (ws : List RegistryWarning) :
    registerManifests debug ((p, .parsed (some "") desc exps) :: rest) (m, ws) =
      registerManifests debug rest
        (m, ws ++ (if debug then [.skippedNoName p] else [])) := by
  show (if ("" : String) ≠ "" then
      registerManifests debug rest (mapSet m "" ⟨p.dropLast, desc, exps⟩, ws)
    else registerManifests debug rest
      (m, ws ++ (if debug then [.skippedNoName p] else []))) = _
  rw [if_neg (by simp)]

theorem registerManifests_cons_named (debug : Bool) (p : Path) (k : String)
    (desc : String) (exps : List (String × String))
    (rest : List (Path × ManifestContent)) (m : List (String × PkgInfo))
    (ws : List RegistryWarning) (hk : k ≠ "") :
    registerManifests debug ((p, .parsed (some k) desc exps) :: rest) (m, ws) =
      registerManifests debug rest (mapSet m k ⟨p.dropLast, desc, exps⟩, ws) := by
  show (if k ≠ "" then
      registerManifests debug rest (mapSet m k ⟨p.dropLast, desc, exps⟩, ws)
    else registerManifests debug rest
      (m, ws ++ (if debug then [.skippedNoName p] else []))) = _
  rw [if_pos hk]

/-- The last manifest in discovery order that carries a given (truthy) package
name, together with the registry value it would produce. -/
def lastNamed (n : String) : List (Path × ManifestContent) → Option PkgInfo
  | [] => none
  | (p, c) :: rest =>
    match lastNamed n rest with
    | some i => some i
    | none =>
      match c with
      | .parsed (some m) desc exps =>
        if m = n ∧ n ≠ "" then some ⟨p.dropLast, desc, exps⟩ else none
      | _ => none

theorem registerManifests_get (debug : Bool) :
    ∀ (entries : List (Path × ManifestContent)) (m : List (String × PkgInfo))
      (ws : List RegistryWarning) (n : String),
      mapGet (registerManifests debug entries (m, ws)).1 n =
        match lastNamed n entries with
        | some i => some i
        | none => mapGet m n := by
  intro entries
  induction entries with
  | nil =>
    intro m ws n
    simp [registerManifests_nil, lastNamed]
  | cons entry rest ih =>
    intro m ws n
    obtain ⟨p, c⟩ := entry
    cases c with
    | invalid =>
      rw [registerManifests_cons_invalid, ih]
      cases h : lastNamed n rest <;> simp [lastNamed, h]
    | parsed name desc exps =>
      cases name with
      | none =>
        rw [registerManifests_cons_noname, ih]
        cases h : lastNamed n rest <;> simp [lastNamed, h]
      | some k =>
        by_cases hk : k = ""
        · subst hk
          rw [registerManifests_cons_emptyname, ih]
          have hcond : ¬(("" : String) = n ∧ n ≠ "") := fun hc => hc.2 hc.1.symm
          cases h : lastNamed n rest <;> simp [lastNamed, h, hcond]
        · rw [registerManifests_cons_named debug p k desc exps rest m ws hk, ih]
          cases h : lastNamed n rest with
          | some i => simp [lastNamed, h]
          | none =>
            simp only [lastNamed, h]
            by_cases hkn : k = n
            · subst hkn
              rw [if_pos ⟨rfl, hk⟩, mapGet_mapSet_self]
            · rw [if_neg (fun hc => hkn hc.1),
                mapGet_mapSet_ne m k ⟨p.dropLast, desc, exps⟩ n (fun he => hkn he.symm)]

theorem registerManifests_nodup (debug : Bool) :
    ∀ (entries : List (Path × ManifestContent)) (m : List (String × PkgInfo))
      (ws : List RegistryWarning),
      (m.map Prod.fst).Nodup →
      (((registerManifests debug entries (m, ws)).1).map Prod.fst).Nodup := by
  intro entries
  induction entries with
  | nil =>
    intro m ws h
    exact h
  | cons entry rest ih =>
    intro m ws h
    obtain ⟨p, c⟩ := entry
    cases c with
    | invalid =>
      rw [registerManifests_cons_invalid]
      exact ih m _ h
    | parsed name desc exps =>
      cases name with
      | none =>
        rw [registerManifests_cons_noname]
        exact ih m _ h
      | some k =>
        by_cases hk : k = ""
        · subst hk
          rw [registerManifests_cons_emptyname]
          exact ih m _ h
        · rw [registerManifests_cons_named debug p k desc exps rest m ws hk]
          exact ih _ ws (nodup_keys_mapSet m k _ h)

theorem registerManifests_warnings (debug : Bool) :
    ∀ (entries : List (Path × ManifestContent)) (m : List (String × PkgInfo))
      (ws : List RegistryWarning),
      (registerManifests debug entries (m, ws)).2 =
        ws ++ (entries.map (manifestWarnings debug)).flatten := by
  intro entries
  induction entries with
  | nil =>
    intro m ws
    simp [registerManifests_nil]
  | cons entry rest ih =>
    intro m ws
    obtain ⟨p, c⟩ := entry
    cases c with
    | invalid =>
      rw [registerManifests_cons_invalid, ih]
      simp [manifestWarnings]
    | parsed name desc exps =>
      cases name with
      | none =>
        rw [registerManifests_cons_noname, ih]
        simp [manifestWarnings]
      | some k =>
        by_cases hk : k = ""
        · subst hk
          rw [registerManifests_cons_emptyname, ih]
          simp [manifestWarnings]
        · rw [registerManifests_cons_named debug p k desc exps rest m ws hk, ih]
          simp [manifestWarnings, hk]

/-- C5 counterexample: two manifests declaring the name `dup` — discovery (with
debug logging on, the most talkative mode) registers the second one's directory
and emits no warning at all, contradicting the claim that a collision warning is
emitted. -/
theorem c5_duplicate_name_no_warning :
    findWorkspacePackages ["r"]
        ⟨.absent, [(["r", "a", "package.json"], .parsed (some "dup") "A" []),
          (["r", "b", "package.json"], .parsed (some "dup") "B" [])]⟩ true =
      .ok ([("dup", ⟨["r", "b"], "B", []⟩)], []) :=
  rfl

/-- C5 amended: when several discovered manifests declare the same name, the
last one discovered wins silently — no warning is emitted for the collision
(warnings arise only from unreadable or nameless manifests, independently per
manifest) — and the registry maps each package name to at most one directory
(its key list has no duplicates). -/
theorem c5_last_wins_silently :
    (∀ (debug : Bool) (entries : List (Path × ManifestContent)) (n : String),
      mapGet (registerManifests debug entries ([], [])).1 n = lastNamed n entries) ∧
    (∀ (debug : Bool) (entries : List (Path × ManifestContent)),
      (((registerManifests debug entries ([], [])).1).map Prod.fst).Nodup) ∧
    (∀ (debug : Bool) (entries : List (Path × ManifestContent)),
      (registerManifests debug entries ([], [])).2 =
        (entries.map (manifestWarnings debug)).flatten) := by
  refine ⟨?_, ?_, ?_⟩
  · intro debug entries n
    rw [registerManifests_get]
    cases h : lastNamed n entries <;> simp [mapGet_nil]
  · intro debug entries
    exact registerManifests_nodup debug entries [] [] (by simp)
  · intro debug entries
    rw [registerManifests_warnings]
    simp

theorem self_mem_allSuffixes {α : Type} (l : List α) : l ∈ allSuffixes l := by
  cases l <;> simp [allSuffixes]

theorem matchGlob_cons (p : String) (ps cs : List String) :
    matchGlob (p :: ps) cs =
      if p = "**" then (allSuffixes cs).any (fun cs' => matchGlob ps cs')
      else
        match cs with
        | [] => false
        | c :: cs' => (decide (p = "*") || decide (p = c)) && matchGlob ps cs' := rfl

theorem matchGlob_cons_same (a : String) (ps cs : List String)
    (h : matchGlob ps cs = true) : matchGlob (a :: ps) (a :: cs) = true := by
  by_cases ha : a = "**"
  · subst ha
    rw [matchGlob_cons, if_pos rfl]
    refine List.any_eq_true.mpr ⟨cs, ?_, h⟩
    exact List.mem_cons_of_mem _ (self_mem_allSuffixes cs)
  · rw [matchGlob_cons, if_neg ha]
    show ((decide (a = "*") || decide (a = a)) && matchGlob ps cs) = true
    simp [h]

theorem matchGlob_append_left (root : List String) (ps cs : List String)
    (h : matchGlob ps cs = true) :
    matchGlob (root ++ ps) (root ++ cs) = true := by
  induction root with
  | nil => simpa using h
  | cons a rest ih => exact matchGlob_cons_same a _ _ ih

theorem matchGlob_globstar_last (x : String) (mid : List String) :
    matchGlob ["**", x] (mid ++ [x]) = true := by
  induction mid with
  | nil =>
    by_cases hx : x = "**" <;> simp [matchGlob, allSuffixes, hx]
  | cons c rest ih =>
    rw [List.cons_append, matchGlob_cons, if_pos rfl]
    have ih' : (allSuffixes (rest ++ [x])).any (fun cs' => matchGlob [x] cs') = true := by
      rw [matchGlob_cons, if_pos rfl] at ih
      exact ih
    obtain ⟨cs', hmem, hcs⟩ := List.any_eq_true.mp ih'
    exact List.any_eq_true.mpr ⟨cs', List.mem_cons_of_mem _ hmem, hcs⟩

theorem registerManifests_preserves_isSome (debug : Bool) :
    ∀ (entries : List (Path × ManifestContent)) (m : List (String × PkgInfo))
      (ws : List RegistryWarning) (n : String),
      (mapGet m n).isSome = true →
      (mapGet (registerManifests debug entries (m, ws)).1 n).isSome = true := by
  intro entries
  induction entries with
  | nil =>
    intro m ws n h
    exact h
  | cons entry rest ih =>
    intro m ws n h
    obtain ⟨p, c⟩ := entry
    cases c with
    | invalid =>
      rw [registerManifests_cons_invalid]
      exact ih m _ n h
    | parsed name desc exps =>
      cases name with
      | none =>
        rw [registerManifests_cons_noname]
        exact ih m _ n h
      | some k =>
        by_cases hk : k = ""
        · subst hk
          rw [registerManifests_cons_emptyname]
          exact ih m _ n h
        · rw [registerManifests_cons_named debug p k desc exps rest m ws hk]
          refine ih _ ws n ?_
          by_cases hkn : k = n
          · subst hkn
            rw [mapGet_mapSet_self]
            rfl
          · rw [mapGet_mapSet_ne m k _ n (fun he => hkn he.symm)]
            exact h

theorem registerManifests_mem_isSome (debug : Bool) :
    ∀ (entries : List (Path × ManifestContent)) (m : List (String × PkgInfo))
      (ws : List RegistryWarning) (p : Path) (n d : String)
      (ex : List (String × String)),
      (p, .parsed (some n) d ex) ∈ entries → n ≠ "" →
      (mapGet (registerManifests debug entries (m, ws)).1 n).isSome = true := by
  intro entries
  induction entries with
  | nil =>
    intro m ws p n d ex h
    simp at h
  | cons entry rest ih =>
    intro m ws p n d ex hmem hn
    rcases List.mem_cons.mp hmem with heq | hmem'
    · subst heq
      rw [registerManifests_cons_named debug p n d ex rest m ws hn]
      refine registerManifests_preserves_isSome debug rest _ ws n ?_
      rw [mapGet_mapSet_self]
      rfl
    · obtain ⟨q, c⟩ := entry
      cases c with
      | invalid =>
        rw [registerManifests_cons_invalid]
        exact ih m _ p n d ex hmem' hn
      | parsed name desc exps =>
        cases name with
        | none =>
          rw [registerManifests_cons_noname]
          exact ih m _ p n d ex hmem' hn
        | some k =>
          by_cases hk : k = ""
          · subst hk
            rw [registerManifests_cons_emptyname]
            exact ih m _ p n d ex hmem' hn
          · rw [registerManifests_cons_named debug q k desc exps rest m ws hk]
            exact ih _ ws p n d ex hmem' hn

/-- C4 counterexample: with the workspace manifest absent, the fallback scan
registers a manifest living under `node_modules` (the glob has no exclusions),
and with a manifest that parses but lacks the `packages` array, discovery
raises an error (`glob` is invoked with undefined patterns) instead of falling
back — both halves contradicting the claim. -/
theorem c4_fallback_not_bounded :
    findWorkspacePackages ["r"]
        ⟨.absent, [(["r", "node_modules", "dep", "package.json"],
          .parsed (some "dep") "" [])]⟩ false =
      .ok ([("dep", ⟨["r", "node_modules", "dep"], "", []⟩)], []) ∧
    findWorkspacePackages ["r"] ⟨.invalidShape, []⟩ false =
      .error .patternsUndefined :=
  ⟨rfl, rfl⟩

/-- C4 amended: when the workspace manifest is absent or fails to read/parse,
discovery raises no error and falls back to globbing `repoRoot/**/package.json`
over the whole tree — a scan that is NOT bounded by the traversal engine's
directory exclusions: a named manifest under `node_modules` is discovered and
registered. When the manifest is readable YAML but lacks the `packages` array
(structurally invalid), no glob pattern is ever assigned and discovery raises
an error rather than falling back. -/
theorem c4_fallback_behavior :
    (∀ (repoRoot : Path) (fs : RepoFs) (debug : Bool),
      fs.yaml = .absent ∨ fs.yaml = .unparseable →
      ∃ m w, findWorkspacePackages repoRoot fs debug = .ok (m, w)) ∧
    (∀ (repoRoot : Path) (fs : RepoFs) (debug : Bool) (mid : List String)
        (n d : String) (ex : List (String × String)),
      fs.yaml = .absent ∨ fs.yaml = .unparseable → n ≠ "" →
      (repoRoot ++ "node_modules" :: (mid ++ ["package.json"]),
        ManifestContent.parsed (some n) d ex) ∈ fs.manifests →
      ∃ m w, findWorkspacePackages repoRoot fs debug = .ok (m, w) ∧
        (mapGet m n).isSome = true) ∧
    (∀ (repoRoot : Path) (fs : RepoFs) (debug : Bool),
      fs.yaml = .invalidShape →
      findWorkspacePackages repoRoot fs debug = .error .patternsUndefined) := by
  refine ⟨?_, ?_, ?_⟩
  · intro repoRoot fs debug hy
    obtain ⟨y, mans⟩ := fs
    rcases hy with hy | hy <;> (simp only at hy; subst hy; exact ⟨_, _, rfl⟩)
  · intro repoRoot fs debug mid n d ex hy hn hmem
    obtain ⟨y, mans⟩ := fs
    simp only at hmem
    have hmatch : matchGlob (repoRoot ++ ["**", "package.json"])
        (repoRoot ++ "node_modules" :: (mid ++ ["package.json"])) = true := by
      refine matchGlob_append_left repoRoot _ _ ?_
      have := matchGlob_globstar_last "package.json" ("node_modules" :: mid)
      simpa using this
    have hsel : (repoRoot ++ "node_modules" :: (mid ++ ["package.json"]),
        ManifestContent.parsed (some n) d ex) ∈
        mans.filter (fun mf =>
          [repoRoot ++ ["**", "package.json"]].any (fun pat => matchGlob pat mf.1)) := by
      refine List.mem_filter.mpr ⟨hmem, ?_⟩
      simp [hmatch]
    rcases hy with hy | hy <;>
      (simp only at hy; subst hy;
       exact ⟨_, _, rfl,
         registerManifests_mem_isSome debug _ [] [] _ n d ex hsel hn⟩)
  · intro repoRoot fs debug hy
    obtain ⟨y, mans⟩ := fs
    simp only at hy
    subst hy
    rfl

/-- C4 witness: the amended behavior at a concrete repository (absent manifest
with a `node_modules` package, and an invalid-shape manifest). -/
theorem c4_fallback_behavior_witness :
    ((⟨.absent, [(["r", "node_modules", "dep", "package.json"],
        .parsed (some "dep") "" [])]⟩ : RepoFs).yaml = .absent ∨
      (⟨.absent, [(["r", "node_modules", "dep", "package.json"],
        .parsed (some "dep") "" [])]⟩ : RepoFs).yaml = .unparseable) ∧
    ("dep" : String) ≠ "" ∧
    (∃ m w, findWorkspacePackages ["r"]
        ⟨.absent, [(["r", "node_modules", "dep", "package.json"],
          .parsed (some "dep") "" [])]⟩ false = .ok (m, w) ∧
      (mapGet m "dep").isSome = true) ∧
    findWorkspacePackages ["r"] ⟨.invalidShape, []⟩ false =
      .error .patternsUndefined :=
  ⟨Or.inl rfl, by decide,
    c4_fallback_behavior.2.1 ["r"]
      ⟨.absent, [(["r", "node_modules", "dep", "package.json"],
        .parsed (some "dep") "" [])]⟩ false ["dep"] "dep" "" []
      (Or.inl rfl) (by decide) (by decide),
    c4_fallback_behavior.2.2 ["r"] ⟨.invalidShape, []⟩ false rfl⟩

theorem pathRelative_append (base rel : Path) : pathRelative base (base ++ rel) = rel := by
  induction base with
  | nil =>
    rw [List.nil_append]
    cases rel <;> rfl
  | cons a rest ih =>
    show pathRelative (a :: rest) (a :: (rest ++ rel)) = rel
    unfold pathRelative
    simp [ih]

theorem load_fold_preserve (n : String) :
    ∀ (entries : List PkgRecord) (init : List (String × PkgRecord)),
      (∀ e ∈ entries, e.name ≠ n) →
      mapGet (entries.foldl loadStep init) n = mapGet init n := by
  intro entries
  induction entries with
  | nil =>
    intro init h
    rfl
  | cons e rest ih =>
    intro init h
    rw [List.foldl_cons, ih _ (fun x hx => h x (List.mem_cons_of_mem e hx))]
    unfold loadStep
    by_cases hc : e.name ≠ "" ∧ e.path ≠ []
    · rw [if_pos hc, mapGet_mapSet_ne init e.name e n
        (fun he => h e (List.mem_cons_self e rest) he.symm)]
    · rw [if_neg hc]

theorem load_fold_get (n : String) :
    ∀ (entries : List PkgRecord) (init : List (String × PkgRecord)) (e : PkgRecord),
      (entries.map PkgRecord.name).Nodup →
      e ∈ entries → e.name = n → n ≠ "" → e.path ≠ [] →
      mapGet (entries.foldl loadStep init) n = some e := by
  intro entries
  induction entries with
  | nil =>
    intro init e _ hmem
    simp at hmem
  | cons hd rest ih =>
    intro init e hnd hmem hen hn hp
    rw [List.map_cons] at hnd
    obtain ⟨hnotin, hndrest⟩ := List.nodup_cons.mp hnd
    rcases List.mem_cons.mp hmem with heq | hmem'
    · subst heq
      rw [List.foldl_cons]
      have hstep : loadStep init e = mapSet init n e := by
        unfold loadStep
        rw [if_pos ⟨fun h0 => hn (hen ▸ h0), hp⟩, hen]
      rw [hstep]
      rw [load_fold_preserve n rest (mapSet init n e) ?hrest]
      · exact mapGet_mapSet_self init n e
      case hrest =>
        intro x hx hxn
        have hx1 : n ∈ rest.map PkgRecord.name :=
          hxn ▸ List.mem_map_of_mem PkgRecord.name hx
        exact hnotin (by rwa [hen])
    · rw [List.foldl_cons]
      exact ih (loadStep init hd) e hndrest hmem' hen hn hp

/-- C8: a package registered under name `P` at directory `D` (below the repo
root) survives the cache-artifact round trip: serializing the registry with
`createWorkspaceIndex` and reading it back with `loadWorkspaceIndex` yields an
entry for `P` whose stored `"./"`-relative path joins back (as the resolver
does with `path.join(repoRoot, packageInfo.path)`) to exactly `D`, with the
description carried along. -/
theorem c8_registry_cache_roundtrip (repoRoot : Path) (reg : List (String × PkgInfo))
    (pkgName : String) (info : PkgInfo) (rel : Path)
    (hnd : (reg.map Prod.fst).Nodup)
    (hget : mapGet reg pkgName = some info)
    (hname : pkgName ≠ "")
    (hpath : info.path = repoRoot ++ rel)
    (hdot : "." ∉ rel) :
    ∃ e, mapGet (loadWorkspaceIndex (createWorkspaceIndex reg repoRoot)) pkgName = some e ∧
      pathJoin repoRoot e.path = info.path ∧
      e.name = pkgName ∧ e.description = info.description := by
  obtain ⟨kv, hfind, hkv2⟩ := Option.map_eq_some'.mp hget
  have hkvmem : kv ∈ reg := List.mem_of_find?_eq_some hfind
  have hkv1 : kv.1 = pkgName := by
    have := List.find?_some hfind
    exact of_decide_eq_true this
  have hne : reg.isEmpty = false := by
    cases reg with
    | nil => simp at hkvmem
    | cons a l => rfl
  have hart : createWorkspaceIndex reg repoRoot =
      some (reg.map (fun kv =>
        ⟨kv.1, "." :: pathRelative repoRoot kv.2.path, kv.2.description, kv.2.exports⟩)) := by
    unfold createWorkspaceIndex
    rw [hne]
    simp
  set e₀ : PkgRecord :=
    ⟨pkgName, "." :: pathRelative repoRoot info.path, info.description, info.exports⟩ with he₀
  have hmem₀ : e₀ ∈ reg.map (fun kv =>
      ⟨kv.1, "." :: pathRelative repoRoot kv.2.path, kv.2.description, kv.2.exports⟩) := by
    refine List.mem_map.mpr ⟨kv, hkvmem, ?_⟩
    rw [hkv1, hkv2]
  have hnames : ((reg.map (fun kv =>
      (⟨kv.1, "." :: pathRelative repoRoot kv.2.path, kv.2.description, kv.2.exports⟩ :
        PkgRecord))).map PkgRecord.name).Nodup := by
    rw [List.map_map]
    exact hnd
  refine ⟨e₀, ?_, ?_, rfl, rfl⟩
  · rw [hart]
    unfold loadWorkspaceIndex
    exact load_fold_get pkgName _ [] e₀ hnames hmem₀ rfl hname (by simp)
  · show pathJoin repoRoot ("." :: pathRelative repoRoot info.path) = info.path
    unfold pathJoin
    rw [hpath, pathRelative_append]
    have hfil : rel.filter (fun c => c ≠ ".") = rel := by
      refine List.filter_eq_self.mpr ?_
      intro c hc
      simp only [ne_eq, decide_eq_true_eq]
      intro hcd
      exact hdot (hcd ▸ hc)
    show repoRoot ++ (("." :: rel).filter (fun c => c ≠ ".")) = repoRoot ++ rel
    simp only [List.filter_cons]
    rw [if_neg (by simp)]
    rw [hfil]

/-- C8 witness: a one-package registry round-trips through the cache artifact. -/
theorem c8_registry_cache_roundtrip_witness :
    (([("pkg-a", (⟨["r", "pkg-a"], "lib", []⟩ : PkgInfo))].map Prod.fst).Nodup ∧
      mapGet [("pkg-a", (⟨["r", "pkg-a"], "lib", []⟩ : PkgInfo))] "pkg-a" =
        some ⟨["r", "pkg-a"], "lib", []⟩ ∧
      ("pkg-a" : String) ≠ "" ∧
      (⟨["r", "pkg-a"], "lib", []⟩ : PkgInfo).path = ["r"] ++ ["pkg-a"] ∧
      ("." : String) ∉ (["pkg-a"] : List String)) ∧
    (∃ e, mapGet (loadWorkspaceIndex (createWorkspaceIndex
        [("pkg-a", ⟨["r", "pkg-a"], "lib", []⟩)] ["r"])) "pkg-a" = some e ∧
      pathJoin ["r"] e.path = (⟨["r", "pkg-a"], "lib", []⟩ : PkgInfo).path ∧
      e.name = "pkg-a" ∧ e.description = (⟨["r", "pkg-a"], "lib", []⟩ : PkgInfo).description) :=
  ⟨⟨by decide, rfl, by decide, rfl, by decide⟩,
    c8_registry_cache_roundtrip ["r"] [("pkg-a", ⟨["r", "pkg-a"], "lib", []⟩)]
      "pkg-a" ⟨["r", "pkg-a"], "lib", []⟩ ["pkg-a"]
      (by decide) rfl (by decide) rfl (by decide)⟩

end LocalLLM
